import Mathlib

/-!
# Verification of the Gutenberg-HTML → TEI drama converter

A shallow embedding of `gbde_totei.py` (class `GutenbergHtmlToTei`).

The converter is a stateful document builder.  We model the TEI body as a
flat, append-only store of elements (`Conv.elems`); an element records its
tag, text, parent and (for `sp` elements) the `who` attribute.  The parent
is either the document `body` or another element, referenced by its index
in the store.  Elements are only ever appended and parents are fixed at
creation time, exactly as in the Python code where `lxml` `SubElement`
appends a child to its parent.  The header metadata (title, author,
language) is not modelled; the cast list built by `add_listPerson` is
modelled as the list of `person` entries it produces.

Python operations that would raise (`SubElement(None, …)`,
`None.tag`, `None[0]`) are modelled by returning `none`.
-/

namespace GbdeTotei

/-! ## String helpers (char-level models of the Python string methods) -/

/-- `l.map Char.toLower`: model of Python `str.lower()`. -/
def lowerL (l : List Char) : List Char := l.map Char.toLower

/-- The space-to-underscore character map. -/
def undC (c : Char) : Char := if c = ' ' then '_' else c

/-- Replace every space by an underscore: model of `str.replace(" ", "_")`. -/
def undL (l : List Char) : List Char := l.map (fun c => if c = ' ' then '_' else c)

/-- The character class stripped by Python `str.strip(".")`. -/
def isDot (c : Char) : Bool := c = '.'

/-- Model of Python `str.strip(".")`: remove all leading and trailing `'.'`. -/
def stripDotsL (l : List Char) : List Char :=
  List.rdropWhile isDot (List.dropWhile isDot l)

/-- Model of Python `str.strip()`: remove leading and trailing whitespace. -/
def trimL (l : List Char) : List Char :=
  List.rdropWhile Char.isWhitespace (List.dropWhile Char.isWhitespace l)

def lower (s : String) : String := ⟨lowerL s.data⟩

def stripDots (s : String) : String := ⟨stripDotsL s.data⟩

def trim (s : String) : String := ⟨trimL s.data⟩

/-- Model of `str.replace("\n", "")`: delete every newline character. -/
def delNl (s : String) : String := ⟨s.data.filter (fun c => !(c = '\n'))⟩

/-- `strTake s n`: the first `n` characters, model of `s[:n]`. -/
def strTake (s : String) (n : Nat) : String := ⟨s.data.take n⟩

/-- `strDrop s n`: all but the first `n` characters, model of `s[n:]`. -/
def strDrop (s : String) (n : Nat) : String := ⟨s.data.drop n⟩

/-- `startsWith2 a b s`: does `s` start with the two characters `a`, `b`?
Model of `s.startswith(x)` for a two-character literal `x`. -/
def startsWith2 (a b : Char) (s : String) : Bool :=
  match s.data with
  | c1 :: c2 :: _ => a = c1 && b = c2
  | _ => false

/-! ## Name normalization (source lines 129, 141, 206) -/

/-- Line 129 without the `"#"`:
`speaker_surface.lower().strip(".").replace(" ", "_")`. -/
def spSlug (s : String) : String := ⟨undL (stripDotsL (lowerL s.data))⟩

/-- Line 129: `speaker_id = "#" + speaker_surface.lower().strip(".").replace(" ", "_")`. -/
def speaker_id (s : String) : String := ⟨'#' :: undL (stripDotsL (lowerL s.data))⟩

/-- Line 141: the text stored in the `speaker` element,
`speaker_surface.strip(".")`. -/
def storedName (s : String) : String := ⟨stripDotsL s.data⟩

/-- Line 206: the cast-entry id, `speaker.lower().replace(" ", "_").strip(".")`
(applied to the text of a `speaker` element). -/
def castId (s : String) : String := ⟨stripDotsL (undL (lowerL s.data))⟩

/-- Modelled from the spec: §8's formula
`id = lowercase(name.strip_trailing(".")).replace(" ", "_")`, which strips
periods only from the *trailing* end of the name. -/
def specSlug (s : String) : String :=
  ⟨undL (lowerL (List.rdropWhile isDot s.data))⟩

/-! ## The document model -/

/-- Tags of the TEI elements the converter creates inside the body. -/
inductive NTag where
  | act    -- div type="act"
  | scene  -- div type="scene"
  | sp
  | speaker
  | stage
  | p
  | lg
  | l
  deriving DecidableEq, Repr

/-- The parent of an element: the `<body>` or another element, by index. -/
inductive Parent where
  | body
  | node (i : Nat)
  deriving DecidableEq, Repr

/-- One element of the output tree. -/
structure Elem where
  tag : NTag
  text : String
  parent : Parent
  who : Option String := none
  deriving DecidableEq, Repr

/-- The converter state: the element store plus the mutable fields of
`GutenbergHtmlToTei` (`current_speaker`, `current_act`, `current_scene`,
`last_elem`, all indices into the store), and the trigger configuration. -/
structure Conv where
  elems : List Elem := []
  current_speaker : Option Nat := none
  current_act : Option Nat := none
  current_scene : Option Nat := none
  last_elem : Option Nat := none
  act_trigger : String := "Akt"
  scene_trigger : String := "Szene"
  deriving DecidableEq, Repr

/-- The state right after `__init__` (empty body, default triggers). -/
def initConv : Conv := {}

/-- The tag of element `i`, if `i` is a valid index. -/
def tagAt (st : Conv) (i : Nat) : Option NTag := (st.elems[i]?).map (·.tag)

/-- Append `t` to the text of element `i` (model of `elem.text += t`). -/
def appendTextAt (st : Conv) (i : Nat) (t : String) : Conv :=
  match st.elems[i]? with
  | none => st
  | some e => { st with elems := st.elems.set i { e with text := e.text ++ t } }

/-! ## Structural builders (source lines 101–195) -/

/-- `add_act` (lines 101–107): new `div type="act"` under the body;
resets the open scene; becomes `last_elem`. -/
def add_act (st : Conv) : Conv :=
  { st with
    elems := st.elems ++ [{ tag := .act, text := "", parent := .body }]
    current_act := some st.elems.length
    current_scene := none
    last_elem := some st.elems.length }

/-- `add_scene` (lines 110–122): new `div type="scene"` under the open act if
one exists, else directly under the body; becomes `last_elem`. -/
def add_scene (st : Conv) : Conv :=
  { st with
    elems := st.elems ++ [{ tag := .scene, text := ""
                            parent := match st.current_act with
                                      | none => .body
                                      | some a => .node a }]
    current_scene := some st.elems.length
    last_elem := some st.elems.length }

/-- `add_speaker` (lines 125–142): a new `sp` element (with `who` attribute)
under the open scene if one exists, else under the open act — with no open
act either, `SubElement(None, …)` raises, modelled as `none` —, and inside it
a `speaker` element holding the period-stripped display name, which becomes
`last_elem`. -/
def add_speaker (st : Conv) (surface : String) : Option Conv :=
  match (match st.current_scene with
         | some sc => some (Parent.node sc)
         | none => st.current_act.map Parent.node) with
  | none => none
  | some par =>
    some { st with
      elems := st.elems ++
        [{ tag := .sp, text := "", parent := par, who := some (speaker_id surface) },
         { tag := .speaker, text := storedName surface, parent := .node st.elems.length }]
      current_speaker := some st.elems.length
      last_elem := some (st.elems.length + 1) }

/-- `add_stage` (lines 167–181): a new `stage` element.  With
`speaker=True` its parent is the active `sp`; otherwise the open scene if one
exists, else the open act.  A `None` parent raises, modelled as `none`.
The text is the source text with newlines deleted; becomes `last_elem`. -/
def add_stage (st : Conv) (txt : String) (speaker : Bool) : Option Conv :=
  match (if speaker then st.current_speaker.map Parent.node
         else match st.current_scene with
              | some sc => some (Parent.node sc)
              | none => st.current_act.map Parent.node) with
  | none => none
  | some par =>
    some { st with
      elems := st.elems ++ [{ tag := .stage, text := delNl txt, parent := par }]
      last_elem := some st.elems.length }

/-- Lines 149–153 of `add_speakerText`: if the text starts with `", "`,
`". "` or `": "` then (a) if `last_elem` is a `stage` element its text gains
the first character of the text (if `last_elem` is `None`, `None.tag`
raises, modelled as `none`), and (b) the first two characters are dropped.
Returns the (possibly updated) state and the remaining text. -/
def fixLeadPunct (st : Conv) (txt : String) : Option (Conv × String) :=
  if startsWith2 ',' ' ' txt || startsWith2 '.' ' ' txt || startsWith2 ':' ' ' txt then
    match st.last_elem with
    | none => none
    | some le =>
      some (if tagAt st le = some .stage then appendTextAt st le (strTake txt 1) else st,
            strDrop txt 2)
  else
    some (st, txt)

/-- Lines 154–165 of `add_speakerText`: delete newlines; if a speaker is
active and the trimmed text has length > 1, create a `p` element under the
active `sp` (which becomes `last_elem`); if it has length exactly 1 and
`last_elem` is a `stage` element, append it to that element's text instead
(`None.tag` raises, modelled as `none`). -/
def speakerTextRest (st : Conv) (txt : String) : Option Conv :=
  match st.current_speaker with
  | none => some st
  | some cs =>
    if (trim (delNl txt)).data.length > 1 then
      some { st with
        elems := st.elems ++ [{ tag := .p, text := trim (delNl txt), parent := .node cs }]
        last_elem := some st.elems.length }
    else if (trim (delNl txt)).data.length = 1 then
      match st.last_elem with
      | none => none
      | some le =>
        if tagAt st le = some .stage then some (appendTextAt st le (trim (delNl txt)))
        else some st
    else some st

/-- `add_speakerText` (lines 144–165): leading-punctuation correction, then
the paragraph-creation step. -/
def add_speakerText (st : Conv) (txt : String) : Option Conv :=
  (fixLeadPunct st txt).bind (fun r => speakerTextRest r.1 r.2)

/-! ## Paragraph contents and `add_lines` -/

/-- A direct child of a paragraph node: a tag (with name, first class, text)
or a navigable string. -/
inductive PChild where
  | tag (name : String) (cls : Option String) (txt : String)
  | text (s : String)
  deriving DecidableEq, Repr

/-- The text content of one paragraph child (`getText` contribution). -/
def childText : PChild → String
  | .tag _ _ t => t
  | .text s => s

/-- A paragraph node: its first `class` value, if any, and its children. -/
structure Para where
  cls : Option String := none
  children : List PChild := []
  deriving DecidableEq, Repr

/-- `p.getText()`: concatenation of all the children's text. -/
def paraText (p : Para) : String := String.join (p.children.map childText)

/-- The non-tag children of a paragraph, as strings (line 188–189:
`[elem for elem in p_elem.children if not isinstance(elem, bs4.Tag)]`). -/
def textChildren (children : List PChild) : List String :=
  children.filterMap (fun c => match c with | .text s => some s | .tag _ _ _ => none)

/-- Lines 190–194: one verse line's text — strip a leading `", "` or `". "`,
delete newlines, trim. -/
def procLine (line : String) : String :=
  trim (delNl (if startsWith2 ',' ' ' line || startsWith2 '.' ' ' line
               then strDrop line 2 else line))

/-- `add_lines` (lines 183–195): a new `lg` element under the active `sp`
(`SubElement(None, …)` raises when there is none, modelled as `none`), then
one `l` element per non-tag child, in order.  `last_elem` ends up at the
`lg` element; since the loop never touches `last_elem`, we record it when
the `lg` is created — the final state is the same as in the source, where
it is assigned after the loop. -/
def add_lines (st : Conv) (children : List PChild) : Option Conv :=
  match st.current_speaker with
  | none => none
  | some cs =>
    some ((textChildren children).foldl
      (fun s2 line =>
        { s2 with elems := s2.elems ++
            [{ tag := .l, text := procLine line, parent := .node st.elems.length }] })
      { st with elems := st.elems ++ [{ tag := .lg, text := "", parent := .node cs }],
                last_elem := some st.elems.length })

/-! ## The paragraph classifier and the page walker (lines 60–99) -/

/-- One inline child of a class-less paragraph (lines 84–99): a `span` is
dispatched on its first class — `stage`, `speaker`, `regie`, anything else
ignored; a `span` with no class raises (`None[0]`), modelled as `none`;
other tags are ignored; a navigable string goes to `add_speakerText`. -/
def parse_inline (st : Conv) (c : PChild) : Option Conv :=
  match c with
  | .tag name cls txt =>
    if name = "span" then
      match cls with
      | none => none
      | some t =>
        if t = "stage" then add_stage st txt false
        else if t = "speaker" then add_speaker st txt
        else if t = "regie" then add_stage st txt true
        else some st
    else some st
  | .text s => add_speakerText st s

/-- `parse_paragraph` (lines 74–99): a paragraph with a class attribute is
dispatched on its first class (`vers` → `add_lines`, `stage` → `add_stage`,
anything else ignored); a class-less paragraph has its children walked in
order. -/
def parse_paragraph (st : Conv) (p : Para) : Option Conv :=
  match p.cls with
  | some t =>
    if t = "vers" then add_lines st p.children
    else if t = "stage" then add_stage st (paraText p) false
    else some st
  | none => p.children.foldlM parse_inline st

/-- A direct child of the page's content container: a paragraph, a heading
`h1`–`h6` (with its level and text), or anything else. -/
inductive PageChild where
  | para (p : Para)
  | heading (level : Nat) (txt : String)
  | other
  deriving DecidableEq, Repr

/-- `needle` occurs in `hay` as a contiguous, case-sensitive substring:
model of Python `needle in hay`. -/
def containsSub (hay needle : String) : Prop := needle.data <:+: hay.data

instance (hay needle : String) : Decidable (containsSub hay needle) :=
  List.decidableInfix needle.data hay.data

/-- One step of `parse_page` (lines 64–72): a `p` goes to the classifier; a
heading of level 1–6 opens an act if its text contains the act trigger, else
a scene if it contains the scene trigger, else nothing; other nodes are
ignored. -/
def parse_child (st : Conv) (c : PageChild) : Option Conv :=
  match c with
  | .para p => parse_paragraph st p
  | .heading lvl txt =>
    if 1 ≤ lvl ∧ lvl ≤ 6 then
      if containsSub txt st.act_trigger then some (add_act st)
      else if containsSub txt st.scene_trigger then some (add_scene st)
      else some st
    else some st
  | .other => some st

/-- `parse_page` (lines 60–72): walk the children of the content container
in document order. -/
def parse_page (st : Conv) (cs : List PageChild) : Option Conv :=
  cs.foldlM parse_child st

/-! ## The cast-list finalizer `add_listPerson` (lines 197–208) -/

/-- The texts of all `speaker` elements in the body. -/
def speakerNames (st : Conv) : List Elem := st.elems.filter (fun e => e.tag = .speaker)

/-- One cast-list entry: a `person` element with its `xml:id` and the text
of its `persName` child. -/
structure Person where
  xmlId : String
  persName : String
  deriving DecidableEq, Repr

/-- Lexicographic comparison of char lists by code point: the order Python
uses to compare strings. -/
def lexLt : List Char → List Char → Bool
  | [], [] => false
  | [], _ :: _ => true
  | _ :: _, [] => false
  | a :: as, b :: bs => if a < b then true else if b < a then false else lexLt as bs

/-- Python's `<` on strings: lexicographic by code point. -/
def strLt (x y : String) : Prop := lexLt x.data y.data = true

instance (x y : String) : Decidable (strLt x y) := by
  unfold strLt
  infer_instance

/-- Insert `x` into a sorted duplicate-free list, keeping it sorted and
duplicate-free. -/
def insD (x : String) : List String → List String
  | [] => [x]
  | y :: ys =>
    if x = y then y :: ys
    else if lexLt x.data y.data then x :: y :: ys
    else y :: insD x ys

/-- Model of Python `sorted(set(l))`: the distinct elements of `l` in
increasing order. -/
def pySortedSet (l : List String) : List String := l.foldr insD []

/-- `add_listPerson` (lines 197–208): collect the text of every `speaker`
element in the body, deduplicate and sort (`sorted(set(…))`), and produce
one `person` entry per name, with `xml:id` `speaker.lower().replace(" ", "_").strip(".")`
and `persName` text the name itself. -/
def add_listPerson (st : Conv) : List Person :=
  (pySortedSet ((speakerNames st).map (·.text))).map
    (fun s => { xmlId := castId s, persName := s })

/-! ## Concrete states used as witnesses and counterexamples

All are reached from `initConv` by converter operations. -/

/-- One act open. -/
def stAct : Conv := add_act initConv

/-- One act with one scene open. -/
def stScene : Conv := add_scene stAct

/-- Act, scene, and an active speech for "MARIA." (sp at index 2). -/
def stSp : Conv := (add_speaker stScene "MARIA.").getD initConv

/-- Act with a division-level stage direction "Ah" (index 1), no speech. -/
def stStage : Conv := (add_stage stAct "Ah" false).getD initConv

/-- The result of feeding the text run ". Hallo" to `stStage`. -/
def stStageFixed : Conv := (add_speakerText stStage ". Hallo").getD initConv

/-- Act with two speeches whose display names differ only in case:
"HANS" and "Hans". -/
def stTwo : Conv :=
  ((add_speaker stAct "HANS").bind (fun s1 => add_speaker s1 "Hans")).getD initConv

/-- The result of `add_speaker stAct "MARIA."`. -/
def stMaria : Conv := (add_speaker stAct "MARIA.").getD initConv

/-! ## Character-level lemmas -/

theorem toLower_eq_of_not_upper {c : Char} (h : ¬(65 ≤ c.toNat ∧ c.toNat ≤ 90)) :
    Char.toLower c = c := by
  unfold Char.toLower
  rw [if_neg h]

theorem toLower_dot (c : Char) : Char.toLower c = '.' ↔ c = '.' := by
  by_cases h : 65 ≤ c.toNat ∧ c.toNat ≤ 90
  · obtain ⟨h1, h2⟩ := h
    have hc : Char.ofNat c.toNat = c := Char.ofNat_toNat c
    revert h1 h2 hc
    generalize c.toNat = n
    intro h1 h2 hc
    subst hc
    interval_cases n <;> decide
  · rw [toLower_eq_of_not_upper h]

theorem toLower_space (c : Char) : Char.toLower c = ' ' ↔ c = ' ' := by
  by_cases h : 65 ≤ c.toNat ∧ c.toNat ≤ 90
  · obtain ⟨h1, h2⟩ := h
    have hc : Char.ofNat c.toNat = c := Char.ofNat_toNat c
    revert h1 h2 hc
    generalize c.toNat = n
    intro h1 h2 hc
    subst hc
    interval_cases n <;> decide
  · rw [toLower_eq_of_not_upper h]

theorem toLower_toLower (c : Char) : Char.toLower (Char.toLower c) = Char.toLower c := by
  by_cases h : 65 ≤ c.toNat ∧ c.toNat ≤ 90
  · obtain ⟨h1, h2⟩ := h
    have hc : Char.ofNat c.toNat = c := Char.ofNat_toNat c
    revert h1 h2 hc
    generalize c.toNat = n
    intro h1 h2 hc
    subst hc
    interval_cases n <;> decide
  · rw [toLower_eq_of_not_upper h, toLower_eq_of_not_upper h]

theorem undC_dot (c : Char) : undC c = '.' ↔ c = '.' := by
  unfold undC
  by_cases h : c = ' '
  · subst h
    decide
  · rw [if_neg h]

theorem undC_undC (c : Char) : undC (undC c) = undC c := by
  unfold undC
  by_cases h : c = ' ' <;> simp [h]

theorem toLower_undC (c : Char) : Char.toLower (undC c) = undC (Char.toLower c) := by
  unfold undC
  by_cases h : c = ' '
  · subst h
    decide
  · rw [if_neg h, if_neg (fun hl => h ((toLower_space c).mp hl))]

theorem undL_eq_map (l : List Char) : undL l = l.map undC := rfl

/-! ## Normalization lemmas: the three char-operations commute -/

theorem rdropWhile_map (p : Char → Bool) (f : Char → Char) (l : List Char) :
    List.rdropWhile p (l.map f) = (List.rdropWhile (p ∘ f) l).map f := by
  simp only [List.rdropWhile, ← List.map_reverse, List.dropWhile_map]

theorem isDot_comp {f : Char → Char} (hf : ∀ c, f c = '.' ↔ c = '.') :
    isDot ∘ f = isDot := by
  funext c
  exact decide_eq_decide.mpr (hf c)

theorem stripDotsL_map {f : Char → Char} (hf : ∀ c, f c = '.' ↔ c = '.')
    (l : List Char) : stripDotsL (l.map f) = (stripDotsL l).map f := by
  unfold stripDotsL
  rw [List.dropWhile_map, rdropWhile_map, isDot_comp hf]

theorem lowerL_stripDotsL (l : List Char) :
    lowerL (stripDotsL l) = stripDotsL (lowerL l) :=
  (stripDotsL_map toLower_dot l).symm

theorem undL_stripDotsL (l : List Char) :
    undL (stripDotsL l) = stripDotsL (undL l) :=
  (stripDotsL_map undC_dot l).symm

theorem lowerL_undL (l : List Char) : lowerL (undL l) = undL (lowerL l) := by
  unfold lowerL undL
  simp only [List.map_map]
  congr 1
  funext c
  exact toLower_undC c

theorem lowerL_lowerL (l : List Char) : lowerL (lowerL l) = lowerL l := by
  unfold lowerL
  simp only [List.map_map]
  congr 1
  funext c
  exact toLower_toLower c

theorem undL_undL (l : List Char) : undL (undL l) = undL l := by
  unfold undL
  simp only [List.map_map]
  congr 1
  funext c
  exact undC_undC c

theorem stripDotsL_idem (l : List Char) : stripDotsL (stripDotsL l) = stripDotsL l := by
  unfold stripDotsL
  have hB : List.dropWhile isDot (List.rdropWhile isDot (List.dropWhile isDot l))
      = List.rdropWhile isDot (List.dropWhile isDot l) := by
    rw [List.dropWhile_eq_self_iff]
    intro hl
    have hpre := List.rdropWhile_prefix isDot (List.dropWhile isDot l)
    have hlen : 0 < (List.dropWhile isDot l).length := lt_of_lt_of_le hl hpre.length_le
    have hget := hpre.getElem (n := 0) hl
    have hnot := List.dropWhile_get_zero_not (p := isDot) l hlen
    simp only [List.get_eq_getElem] at hnot ⊢
    rw [hget]
    exact hnot
  rw [hB, List.rdropWhile_idempotent]

/-- The two normalizations of the source (line 129 and line 206∘line 141)
agree: the cast-entry id computed from the stored display name equals the
speaker-reference slug of the raw display name. -/
theorem castId_storedName (s : String) : castId (storedName s) = spSlug s := by
  unfold castId storedName spSlug
  congr 1
  simp only [lowerL_undL, lowerL_stripDotsL, lowerL_lowerL, ← undL_stripDotsL,
    undL_undL, stripDotsL_idem]

/-- The speaker-reference slug is idempotent. -/
theorem spSlug_idem (s : String) : spSlug (spSlug s) = spSlug s := by
  unfold spSlug
  congr 1
  simp only [lowerL_undL, lowerL_stripDotsL, lowerL_lowerL, ← undL_stripDotsL,
    undL_undL, stripDotsL_idem]

/-- The slug equals lowercasing after stripping the periods (the operations
commute). -/
theorem spSlug_strip_first (s : String) :
    spSlug s = ⟨undL (lowerL (stripDotsL s.data))⟩ := by
  unfold spSlug
  rw [lowerL_stripDotsL]

/-! ## Whitespace lemmas -/

theorem trimL_eq_nil_iff (l : List Char) :
    trimL l = [] ↔ ∀ c ∈ l, Char.isWhitespace c := by
  unfold trimL
  rw [List.rdropWhile_eq_nil_iff]
  constructor
  · intro h c hc
    have hsplit := List.takeWhile_append_dropWhile Char.isWhitespace l
    rw [← hsplit] at hc
    rcases List.mem_append.mp hc with h1 | h2
    · exact List.mem_takeWhile_imp h1
    · exact h c h2
  · intro h c hc
    exact h c ((List.dropWhile_suffix Char.isWhitespace).subset hc)

theorem trimL_delNl_of_nil {l : List Char} (h : trimL l = []) :
    trimL (l.filter (fun c => !(c = '\n'))) = [] := by
  rw [trimL_eq_nil_iff] at h ⊢
  intro c hc
  exact h c (List.mem_of_mem_filter hc)

theorem startsWith2_false_of_trimL_nil {txt : String} (h : trimL txt.data = [])
    {a b : Char} (ha : Char.isWhitespace a = false) : startsWith2 a b txt = false := by
  rw [trimL_eq_nil_iff] at h
  unfold startsWith2
  rcases hd : txt.data with _ | ⟨c1, tl⟩
  · rfl
  · rcases tl with _ | ⟨c2, r⟩
    · rfl
    · have h1 := h c1 (hd ▸ List.mem_cons_self c1 (c2 :: r))
      by_cases hac : a = c1
      · subst hac
        simp [h1] at ha
      · simp [hac]

/-! ## Frame lemmas for `appendTextAt` -/

theorem appendTextAt_current_speaker (st : Conv) (i : Nat) (t : String) :
    (appendTextAt st i t).current_speaker = st.current_speaker := by
  unfold appendTextAt
  cases st.elems[i]? <;> rfl

theorem appendTextAt_current_act (st : Conv) (i : Nat) (t : String) :
    (appendTextAt st i t).current_act = st.current_act := by
  unfold appendTextAt
  cases st.elems[i]? <;> rfl

theorem appendTextAt_current_scene (st : Conv) (i : Nat) (t : String) :
    (appendTextAt st i t).current_scene = st.current_scene := by
  unfold appendTextAt
  cases st.elems[i]? <;> rfl

theorem appendTextAt_last_elem (st : Conv) (i : Nat) (t : String) :
    (appendTextAt st i t).last_elem = st.last_elem := by
  unfold appendTextAt
  cases st.elems[i]? <;> rfl

theorem appendTextAt_length (st : Conv) (i : Nat) (t : String) :
    (appendTextAt st i t).elems.length = st.elems.length := by
  unfold appendTextAt
  cases st.elems[i]? with
  | none => rfl
  | some e => simp

theorem appendTextAt_get (st : Conv) (i : Nat) (t : String) {e : Elem}
    (he : st.elems[i]? = some e) :
    (appendTextAt st i t).elems[i]? = some { e with text := e.text ++ t } := by
  unfold appendTextAt
  rw [he]
  have hi : i < st.elems.length := List.getElem?_eq_some_iff.mp he |>.1
  simp [List.getElem?_set_self hi]

/-! ## Claim C1 -/

/-- **C1.** For every speech present in the finished document, the cast
entry created by the finalizer for that speech's display name carries an id
derived by the same normalization rule as the speech's speaker-reference
id: every cast entry's `xml:id` is `castId` of its display name, and
`castId` applied to the stored display name (the period-stripped surface)
agrees with the speaker-reference slug `spSlug` of the raw display name —
so the same display name always yields the same id in both places. -/
theorem C1_cast_id_matches_speaker_slug :
    (∀ st : Conv, ∀ p ∈ add_listPerson st, p.xmlId = castId p.persName) ∧
    (∀ s : String, castId (storedName s) = spSlug s) := by
  constructor
  · intro st p hp
    unfold add_listPerson at hp
    rcases List.mem_map.mp hp with ⟨n, _, rfl⟩
    rfl
  · exact castId_storedName

/-- Witness for C1 at a concrete state with speakers "HANS" and "Hans". -/
theorem C1_cast_id_matches_speaker_slug_witness :
    (Person.mk "hans" "HANS").xmlId = castId (Person.mk "hans" "HANS").persName ∧
    castId (storedName "MARIA.") = spSlug "MARIA." :=
  ⟨C1_cast_id_matches_speaker_slug.1 stTwo (Person.mk "hans" "HANS") (by decide),
   C1_cast_id_matches_speaker_slug.2 "MARIA."⟩

/-! ## Claim C3 -/

/-- **C3 counterexample.** The claim says the id is
`lowercase(name with the trailing period stripped)` with spaces replaced by
underscores.  But Python `strip(".")` also removes *leading* periods: for
the display name `".A"` the code derives the slug `"a"`, while the claimed
formula keeps the leading period and yields `".a"`. -/
theorem C3_counterexample :
    spSlug ".A" ≠ specSlug ".A" ∧ spSlug ".A" = "a" ∧ specSlug ".A" = ".a" := by
  decide

/-- **C3 (amended).** For every speaker display name, the derived
speaker-reference id equals lowercase(name with leading **and** trailing
periods stripped) with each space replaced by an underscore; the derivation
is a pure function and is idempotent. -/
theorem C3_slug_formula_idempotent :
    ∀ s : String,
      spSlug s = ⟨undL (lowerL (stripDotsL s.data))⟩ ∧ spSlug (spSlug s) = spSlug s :=
  fun s => ⟨spSlug_strip_first s, spSlug_idem s⟩

/-! ## Claim C10 -/

/-- **C10.** For every speech created, its `who` attribute equals `"#"`
followed by the normalized slug of the display name, while the
corresponding cast-entry id (`castId` of the stored name) is the bare slug
with no `"#"` prepended; therefore the `who` attribute never equals the
cast-entry id as a string. -/
theorem C10_who_hash_vs_cast_id :
    ∀ (st : Conv) (s : String) (st' : Conv), add_speaker st s = some st' →
      (st'.elems[st.elems.length]?).map (·.who) = some (some (speaker_id s)) ∧
      speaker_id s = ⟨'#' :: (castId (storedName s)).data⟩ ∧
      speaker_id s ≠ castId (storedName s) := by
  intro st s st' h
  unfold add_speaker at h
  rcases hpar : (match st.current_scene with
      | some sc => some (Parent.node sc)
      | none => st.current_act.map Parent.node) with _ | par
  · rw [hpar] at h
    exact absurd h (by simp)
  · rw [hpar] at h
    injection h with h
    subst h
    refine ⟨?_, ?_, ?_⟩
    · simp [List.getElem?_append_right (le_refl st.elems.length)]
    · rw [castId_storedName]
      rfl
    · intro he
      have hd := congrArg String.data he
      rw [castId_storedName] at hd
      exact List.cons_ne_self '#' (spSlug s).data hd

/-- Witness for C10: the speech for "MARIA." created on `stAct`. -/
theorem C10_who_hash_vs_cast_id_witness :
    (stMaria.elems[stAct.elems.length]?).map (·.who) = some (some (speaker_id "MARIA.")) ∧
    speaker_id "MARIA." = ⟨'#' :: (castId (storedName "MARIA.")).data⟩ ∧
    speaker_id "MARIA." ≠ castId (storedName "MARIA.") :=
  C10_who_hash_vs_cast_id stAct "MARIA." stMaria (by decide)

/-! ## Claim C8 -/

/-- **C8.** For every heading node of levels 1 through 6 visited by the page
walker: if its text contains the act-trigger word as a (case-sensitive)
substring, a new act is opened; otherwise, if it contains the scene-trigger
word, a new scene is opened; otherwise the document tree and converter
state are unchanged. -/
theorem C8_heading_triggers :
    ∀ (st : Conv) (lvl : Nat) (txt : String), 1 ≤ lvl → lvl ≤ 6 →
      (containsSub txt st.act_trigger →
        parse_child st (.heading lvl txt) = some (add_act st)) ∧
      (¬ containsSub txt st.act_trigger → containsSub txt st.scene_trigger →
        parse_child st (.heading lvl txt) = some (add_scene st)) ∧
      (¬ containsSub txt st.act_trigger → ¬ containsSub txt st.scene_trigger →
        parse_child st (.heading lvl txt) = some st) := by
  intro st lvl txt h1 h6
  have hred : parse_child st (.heading lvl txt) =
      if 1 ≤ lvl ∧ lvl ≤ 6 then
        if containsSub txt st.act_trigger then some (add_act st)
        else if containsSub txt st.scene_trigger then some (add_scene st)
        else some st
      else some st := rfl
  rw [hred, if_pos ⟨h1, h6⟩]
  refine ⟨fun ha => ?_, fun ha hs => ?_, fun ha hs => ?_⟩
  · rw [if_pos ha]
  · rw [if_neg ha, if_pos hs]
  · rw [if_neg ha, if_neg hs]

/-- Witness for C8 on the default triggers "Akt"/"Szene". -/
theorem C8_heading_triggers_witness :
    parse_child initConv (.heading 1 "1. Akt") = some (add_act initConv) ∧
    parse_child initConv (.heading 2 "2. Szene") = some (add_scene initConv) ∧
    parse_child initConv (.heading 3 "Vorspiel") = some initConv :=
  ⟨(C8_heading_triggers initConv 1 "1. Akt" (by decide) (by decide)).1 (by decide),
   (C8_heading_triggers initConv 2 "2. Szene" (by decide) (by decide)).2.1
     (by decide) (by decide),
   (C8_heading_triggers initConv 3 "Vorspiel" (by decide) (by decide)).2.2
     (by decide) (by decide)⟩

/-! ## Claim C9 -/

/-- **C9.** For every paragraph carrying a class attribute whose value is
neither "vers" nor "stage", the classifier performs no action: the state
(document tree included) is returned unchanged and no failure occurs. -/
theorem C9_unknown_class_noop :
    ∀ (st : Conv) (p : Para) (c : String), p.cls = some c → c ≠ "vers" → c ≠ "stage" →
      parse_paragraph st p = some st := by
  intro st p c hc h1 h2
  unfold parse_paragraph
  rw [hc]
  simp only [if_neg h1, if_neg h2]

/-- Witness for C9: a paragraph of class "center" is skipped. -/
theorem C9_unknown_class_noop_witness :
    parse_paragraph stAct (Para.mk (some "center") []) = some stAct :=
  C9_unknown_class_noop stAct (Para.mk (some "center") []) "center" rfl
    (by decide) (by decide)

/-! ## Claim C2 -/

/-- **C2 counterexample.** The claim says that with no open scene and no
open act, a speech or division-level stage direction is inserted under the
document body.  In the code, `add_speaker`/`add_stage` then pass
`self.current_act = None` to `SubElement`, which raises: nothing is
inserted at all (modelled as `none`). -/
theorem C2_counterexample :
    add_speaker initConv "ANNA" = none ∧ add_stage initConv "Auftritt" false = none := by
  decide

/-- **C2 (amended).** Whenever a speech or a division-level stage direction
is inserted, its parent is the innermost currently-open scene if one is
open, else the innermost currently-open act; if neither is open the
insertion fails (it does **not** fall back to the document body). -/
theorem C2_insertion_parent :
    ∀ (st : Conv) (s txt : String),
      (∀ sc, st.current_scene = some sc →
        (∃ st', add_speaker st s = some st' ∧
          st'.elems[st.elems.length]? =
            some (Elem.mk .sp "" (.node sc) (some (speaker_id s)))) ∧
        (∃ st', add_stage st txt false = some st' ∧
          st'.elems[st.elems.length]? = some (Elem.mk .stage (delNl txt) (.node sc) none))) ∧
      (st.current_scene = none → ∀ a, st.current_act = some a →
        (∃ st', add_speaker st s = some st' ∧
          st'.elems[st.elems.length]? =
            some (Elem.mk .sp "" (.node a) (some (speaker_id s)))) ∧
        (∃ st', add_stage st txt false = some st' ∧
          st'.elems[st.elems.length]? = some (Elem.mk .stage (delNl txt) (.node a) none))) ∧
      (st.current_scene = none → st.current_act = none →
        add_speaker st s = none ∧ add_stage st txt false = none) := by
  intro st s txt
  refine ⟨fun sc hsc => ⟨?_, ?_⟩, fun hsc a ha => ⟨?_, ?_⟩, fun hsc ha => ⟨?_, ?_⟩⟩
  · unfold add_speaker
    rw [hsc]
    exact ⟨_, rfl, by simp [List.getElem?_append_right (le_refl st.elems.length)]⟩
  · unfold add_stage
    rw [hsc]
    exact ⟨_, rfl, by simp [List.getElem?_append_right (le_refl st.elems.length)]⟩
  · unfold add_speaker
    rw [hsc, ha]
    exact ⟨_, rfl, by simp [List.getElem?_append_right (le_refl st.elems.length)]⟩
  · unfold add_stage
    rw [hsc, ha]
    exact ⟨_, rfl, by simp [List.getElem?_append_right (le_refl st.elems.length)]⟩
  · unfold add_speaker
    rw [hsc, ha]
    rfl
  · unfold add_stage
    rw [hsc, ha]
    rfl

/-- Witness for C2 (amended): insertion under the open scene of `stScene`,
and failure on the empty initial state. -/
theorem C2_insertion_parent_witness :
    ((∃ st', add_speaker stScene "ANNA" = some st' ∧
        st'.elems[stScene.elems.length]? =
          some (Elem.mk .sp "" (.node 1) (some (speaker_id "ANNA")))) ∧
     (∃ st', add_stage stScene "Auftritt" false = some st' ∧
        st'.elems[stScene.elems.length]? =
          some (Elem.mk .stage (delNl "Auftritt") (.node 1) none))) ∧
    (add_speaker initConv "ANNA" = none ∧ add_stage initConv "Auftritt" false = none) :=
  ⟨(C2_insertion_parent stScene "ANNA" "Auftritt").1 1 (by decide),
   (C2_insertion_parent initConv "ANNA" "Auftritt").2.2 (by decide) (by decide)⟩

/-! ## Claim C4 -/

/-- **C4.** For every incoming speaker-text run beginning with `", "`,
`". "` or `": "`, if the most-recently-created node is a stage direction
then the first character of the prefix is appended to that stage
direction's text, and the first two characters of the run are dropped
before further processing (the remainder continues through the
paragraph-creation step). -/
theorem C4_leading_punct_fix :
    ∀ (st : Conv) (txt : String) (le : Nat),
      (startsWith2 ',' ' ' txt || startsWith2 '.' ' ' txt || startsWith2 ':' ' ' txt) = true →
      st.last_elem = some le → tagAt st le = some .stage →
      add_speakerText st txt =
        speakerTextRest (appendTextAt st le (strTake txt 1)) (strDrop txt 2) ∧
      ∀ e, st.elems[le]? = some e →
        (appendTextAt st le (strTake txt 1)).elems[le]? =
          some { e with text := e.text ++ strTake txt 1 } := by
  intro st txt le hsw hle htag
  constructor
  · have h1 : add_speakerText st txt
        = (fixLeadPunct st txt).bind (fun r => speakerTextRest r.1 r.2) := rfl
    have h2 : fixLeadPunct st txt
        = some (if tagAt st le = some NTag.stage then appendTextAt st le (strTake txt 1)
                else st, strDrop txt 2) := by
      unfold fixLeadPunct
      rw [if_pos hsw, hle]
    rw [h1, h2, if_pos htag]
    rfl
  · intro e he
    exact appendTextAt_get st le (strTake txt 1) he

/-- Witness for C4: the stage direction "Ah" of `stStage` gains the period
of the run ". Hallo". -/
theorem C4_leading_punct_fix_witness :
    add_speakerText stStage ". Hallo" =
      speakerTextRest (appendTextAt stStage 1 (strTake ". Hallo" 1)) (strDrop ". Hallo" 2) ∧
    (appendTextAt stStage 1 (strTake ". Hallo" 1)).elems[1]? =
      some { Elem.mk .stage "Ah" (.node 0) none with
             text := (Elem.mk .stage "Ah" (.node 0) none).text ++ strTake ". Hallo" 1 } :=
  ⟨(C4_leading_punct_fix stStage ". Hallo" 1 (by decide) (by decide) (by decide)).1,
   (C4_leading_punct_fix stStage ". Hallo" 1 (by decide) (by decide) (by decide)).2
     (Elem.mk .stage "Ah" (.node 0) none) (by decide)⟩

/-! ## Claim C6 -/

theorem speakerTextRest_no_speaker {st : Conv} (h : st.current_speaker = none)
    (txt : String) : speakerTextRest st txt = some st := by
  unfold speakerTextRest
  rw [h]

/-- **C6 counterexample.** With no active speech the handler is *not*
always a no-op: on `stStage` (whose last-created element is the stage
direction "Ah") the text run ". Hallo" mutates the tree — the stage
direction's text becomes "Ah.". -/
theorem C6_counterexample :
    stStage.current_speaker = none ∧
    add_speakerText stStage ". Hallo" = some stStageFixed ∧
    stStageFixed ≠ stStage ∧
    stStageFixed.elems[1]?.map (·.text) = some "Ah." := by
  decide

/-- **C6 (amended).** If there is no active speech, or the incoming run is
empty after trimming, then the speaker-text handler creates no element and
leaves every state field unchanged; the only possible change to the tree is
the leading-punctuation correction: when the run starts with `", "`, `". "`
or `": "` and the last-created element is a stage direction, that
element's text gains the first character of the run. -/
theorem C6_no_speech_frame :
    ∀ (st : Conv) (txt : String) (st' : Conv),
      add_speakerText st txt = some st' →
      (st.current_speaker = none ∨ trim txt = "") →
      (st'.elems.length = st.elems.length ∧
       st'.current_speaker = st.current_speaker ∧
       st'.current_act = st.current_act ∧
       st'.current_scene = st.current_scene ∧
       st'.last_elem = st.last_elem) ∧
      (st' = st ∨ ∃ le, st.last_elem = some le ∧ tagAt st le = some .stage ∧
        (startsWith2 ',' ' ' txt || startsWith2 '.' ' ' txt
          || startsWith2 ':' ' ' txt) = true ∧
        st' = appendTextAt st le (strTake txt 1)) := by
  intro st txt st' h hc
  have hmain : st' = st ∨ ∃ le, st.last_elem = some le ∧ tagAt st le = some .stage ∧
      (startsWith2 ',' ' ' txt || startsWith2 '.' ' ' txt
        || startsWith2 ':' ' ' txt) = true ∧
      st' = appendTextAt st le (strTake txt 1) := by
    by_cases hsw : (startsWith2 ',' ' ' txt || startsWith2 '.' ' ' txt
        || startsWith2 ':' ' ' txt) = true
    · have hns : st.current_speaker = none := by
        rcases hc with hns | htr
        · exact hns
        · exfalso
          have hnil : trimL txt.data = [] := congrArg String.data htr
          rw [startsWith2_false_of_trimL_nil hnil (by decide),
            startsWith2_false_of_trimL_nil hnil (by decide),
            startsWith2_false_of_trimL_nil hnil (by decide)] at hsw
          exact Bool.noConfusion hsw
      rcases hle : st.last_elem with _ | le
      · exfalso
        have hn : add_speakerText st txt = none := by
          unfold add_speakerText fixLeadPunct
          rw [if_pos hsw, hle]
          rfl
        rw [hn] at h
        exact Option.noConfusion h
      · have h2 : add_speakerText st txt =
            speakerTextRest
              (if tagAt st le = some NTag.stage then appendTextAt st le (strTake txt 1)
               else st) (strDrop txt 2) := by
          unfold add_speakerText fixLeadPunct
          rw [if_pos hsw, hle]
          rfl
        rw [h2] at h
        by_cases htag : tagAt st le = some NTag.stage
        · rw [if_pos htag] at h
          rw [speakerTextRest_no_speaker
            (by rw [appendTextAt_current_speaker]; exact hns)] at h
          right
          exact ⟨le, rfl, htag, hsw, ((Option.some.injEq _ _).mp h).symm⟩
        · rw [if_neg htag, speakerTextRest_no_speaker hns] at h
          left
          exact ((Option.some.injEq _ _).mp h).symm
    · have h2 : add_speakerText st txt = speakerTextRest st txt := by
        unfold add_speakerText fixLeadPunct
        rw [if_neg hsw]
        rfl
      rw [h2] at h
      rcases hc with hns | htr
      · rw [speakerTextRest_no_speaker hns] at h
        left
        exact (Option.some.injEq _ _).mp h.symm
      · rcases hcs : st.current_speaker with _ | cs
        · rw [speakerTextRest_no_speaker hcs] at h
          left
          exact (Option.some.injEq _ _).mp h.symm
        · have hnil : trimL txt.data = [] := congrArg String.data htr
          have hnil2 : (trim (delNl txt)).data = [] := trimL_delNl_of_nil hnil
          have h3 : speakerTextRest st txt = some st := by
            unfold speakerTextRest
            rw [hcs]
            simp only [hnil2]
            rfl
          rw [h3] at h
          left
          exact (Option.some.injEq _ _).mp h.symm
  refine ⟨?_, hmain⟩
  rcases hmain with rfl | ⟨le, _, _, _, rfl⟩
  · exact ⟨rfl, rfl, rfl, rfl, rfl⟩
  · exact ⟨appendTextAt_length st le _, appendTextAt_current_speaker st le _,
      appendTextAt_current_act st le _, appendTextAt_current_scene st le _,
      appendTextAt_last_elem st le _⟩

/-- Witness for C6 (amended) at `stStage` with the run ". Hallo". -/
theorem C6_no_speech_frame_witness :
    (stStageFixed.elems.length = stStage.elems.length ∧
     stStageFixed.current_speaker = stStage.current_speaker ∧
     stStageFixed.current_act = stStage.current_act ∧
     stStageFixed.current_scene = stStage.current_scene ∧
     stStageFixed.last_elem = stStage.last_elem) ∧
    (stStageFixed = stStage ∨ ∃ le, stStage.last_elem = some le ∧
      tagAt stStage le = some .stage ∧
      (startsWith2 ',' ' ' ". Hallo" || startsWith2 '.' ' ' ". Hallo"
        || startsWith2 ':' ' ' ". Hallo") = true ∧
      stStageFixed = appendTextAt stStage le (strTake ". Hallo" 1)) :=
  C6_no_speech_frame stStage ". Hallo" stStageFixed (by decide) (Or.inl (by decide))

/-! ## Claim C5 -/

theorem foldl_append_elems (tg : NTag) (pr : Parent) (lines : List String) :
    ∀ st : Conv,
      lines.foldl (fun s2 line =>
          { s2 with elems := s2.elems ++ [{ tag := tg, text := procLine line, parent := pr }] })
        st
      = { st with elems := st.elems ++
          lines.map (fun line => Elem.mk tg (procLine line) pr none) } := by
  induction lines with
  | nil =>
    intro st
    simp
  | cons x xs ih =>
    intro st
    simp only [List.foldl_cons, List.map_cons]
    rw [ih]
    simp [List.append_assoc]

/-- **C5.** For every paragraph with class "vers" processed while a speech
is active, exactly one new `lg` element is attached under that speech,
followed by one `l` element per direct text-node child (tag children are
skipped) in document order; each line is processed by `procLine` (a
leading `", "` or `". "` prefix of two characters stripped, newlines
removed, surrounding whitespace trimmed), and the `lg` becomes the
last-created element.  The witness instantiates the lines
["Hallo", ", Welt"], which produce l-texts ["Hallo", "Welt"]. -/
theorem C5_verse_lines :
    ∀ (st : Conv) (children : List PChild) (cs : Nat),
      st.current_speaker = some cs →
      parse_paragraph st (Para.mk (some "vers") children) = add_lines st children ∧
      add_lines st children = some
        { st with
          elems := st.elems ++
            (Elem.mk .lg "" (.node cs) none ::
              (textChildren children).map
                (fun line => Elem.mk .l (procLine line) (.node st.elems.length) none)),
          last_elem := some st.elems.length } := by
  intro st children cs hcs
  refine ⟨rfl, ?_⟩
  have hred : add_lines st children = some
      ((textChildren children).foldl
        (fun s2 line =>
          { s2 with elems := s2.elems ++
              [{ tag := NTag.l, text := procLine line, parent := .node st.elems.length }] })
        { st with elems := st.elems ++ [{ tag := NTag.lg, text := "", parent := .node cs }],
                  last_elem := some st.elems.length }) := by
    unfold add_lines
    rw [hcs]
  rw [hred, foldl_append_elems NTag.l (.node st.elems.length)]
  simp [List.append_assoc]

/-- Witness for C5: `stSp` (speech open at index 2) with the verse lines
["Hallo", ", Welt"]; the produced l-texts are ["Hallo", "Welt"]. -/
theorem C5_verse_lines_witness :
    parse_paragraph stSp (Para.mk (some "vers") [PChild.text "Hallo", PChild.text ", Welt"])
      = add_lines stSp [PChild.text "Hallo", PChild.text ", Welt"] ∧
    add_lines stSp [PChild.text "Hallo", PChild.text ", Welt"] = some
      { stSp with
        elems := stSp.elems ++
          (Elem.mk .lg "" (.node 2) none ::
            (textChildren [PChild.text "Hallo", PChild.text ", Welt"]).map
              (fun line => Elem.mk .l (procLine line) (.node stSp.elems.length) none)),
        last_elem := some stSp.elems.length } ∧
    (textChildren [PChild.text "Hallo", PChild.text ", Welt"]).map procLine
      = ["Hallo", "Welt"] :=
  ⟨(C5_verse_lines stSp [PChild.text "Hallo", PChild.text ", Welt"] 2 (by decide)).1,
   (C5_verse_lines stSp [PChild.text "Hallo", PChild.text ", Welt"] 2 (by decide)).2,
   by decide⟩

/-! ## Claim C7: order lemmas for the cast list -/

theorem lexLt_cons (a b : Char) (as bs : List Char) :
    lexLt (a :: as) (b :: bs)
      = if a < b then true else if b < a then false else lexLt as bs := rfl

theorem lexLt_irrefl (l : List Char) : lexLt l l = false := by
  induction l with
  | nil => rfl
  | cons a as ih =>
    rw [lexLt_cons, if_neg (lt_irrefl a), if_neg (lt_irrefl a)]
    exact ih

theorem lexLt_total {as bs : List Char} (hne : as ≠ bs) :
    lexLt as bs = true ∨ lexLt bs as = true := by
  induction as generalizing bs with
  | nil =>
    cases bs with
    | nil => exact absurd rfl hne
    | cons b bs => left; rfl
  | cons a as ih =>
    cases bs with
    | nil => right; rfl
    | cons b bs =>
      rcases lt_trichotomy a b with h | h | h
      · left
        rw [lexLt_cons, if_pos h]
      · subst h
        have hne2 : as ≠ bs := fun he => hne (by rw [he])
        rcases ih hne2 with h2 | h2
        · left
          rw [lexLt_cons, if_neg (lt_irrefl a), if_neg (lt_irrefl a)]
          exact h2
        · right
          rw [lexLt_cons, if_neg (lt_irrefl a), if_neg (lt_irrefl a)]
          exact h2
      · right
        rw [lexLt_cons, if_pos h]

theorem lexLt_trans {as bs cs : List Char} (h1 : lexLt as bs = true)
    (h2 : lexLt bs cs = true) : lexLt as cs = true := by
  induction as generalizing bs cs with
  | nil =>
    cases cs with
    | nil =>
      cases bs with
      | nil => exact h1
      | cons b bs => exact Bool.noConfusion h2
    | cons c cs => rfl
  | cons a as ih =>
    cases bs with
    | nil => exact Bool.noConfusion h1
    | cons b bs =>
      cases cs with
      | nil => exact Bool.noConfusion h2
      | cons c cs =>
        rw [lexLt_cons] at h1 h2 ⊢
        rcases lt_trichotomy a b with hab | hab | hab
        · rcases lt_trichotomy b c with hbc | hbc | hbc
          · rw [if_pos (lt_trans hab hbc)]
          · subst hbc
            rw [if_pos hab]
          · rw [if_neg (lt_asymm hbc), if_pos hbc] at h2
            exact Bool.noConfusion h2
        · subst hab
          rw [if_neg (lt_irrefl a), if_neg (lt_irrefl a)] at h1
          rcases lt_trichotomy a c with hac | hac | hac
          · rw [if_pos hac]
          · subst hac
            rw [if_neg (lt_irrefl a), if_neg (lt_irrefl a)] at h2 ⊢
            exact ih h1 h2
          · rw [if_neg (lt_asymm hac), if_pos hac] at h2
            exact Bool.noConfusion h2
        · rw [if_neg (lt_asymm hab), if_pos hab] at h1
          exact Bool.noConfusion h1

/-- `lexLt` decides Mathlib's lexicographic strict order `List.Lex (· < ·)`. -/
theorem lexLt_iff_lex (as bs : List Char) :
    lexLt as bs = true ↔ List.Lex (· < ·) as bs := by
  induction as generalizing bs with
  | nil =>
    cases bs with
    | nil =>
      constructor
      · intro h
        exact Bool.noConfusion h
      · intro h
        nomatch h
    | cons b bs =>
      constructor
      · intro _
        exact List.Lex.nil
      · intro _
        rfl
  | cons a as ih =>
    cases bs with
    | nil =>
      constructor
      · intro h
        exact Bool.noConfusion h
      · intro h
        nomatch h
    | cons b bs =>
      rw [lexLt_cons]
      rcases lt_trichotomy a b with h | h | h
      · rw [if_pos h]
        constructor
        · intro _
          exact List.Lex.rel h
        · intro _
          rfl
      · subst h
        rw [if_neg (lt_irrefl a), if_neg (lt_irrefl a), ih]
        constructor
        · exact List.Lex.cons
        · intro hl
          cases hl with
          | cons h2 => exact h2
          | rel h2 => exact absurd h2 (lt_irrefl a)
      · rw [if_neg (lt_asymm h), if_pos h]
        constructor
        · intro hf
          exact Bool.noConfusion hf
        · intro hl
          cases hl with
          | cons h2 => exact absurd h (lt_irrefl _)
          | rel h2 => exact absurd h2 (lt_asymm h)

theorem strLt_ne {a b : String} (h : strLt a b) : a ≠ b := by
  intro he
  subst he
  unfold strLt at h
  rw [lexLt_irrefl] at h
  exact Bool.noConfusion h

theorem strLt_trans {a b c : String} (h1 : strLt a b) (h2 : strLt b c) :
    strLt a c := lexLt_trans h1 h2

theorem mem_insD (x a : String) (l : List String) :
    a ∈ insD x l ↔ a = x ∨ a ∈ l := by
  induction l with
  | nil => simp [insD]
  | cons y ys ih =>
    unfold insD
    by_cases h1 : x = y
    · subst h1
      rw [if_pos rfl]
      simp only [List.mem_cons]
      tauto
    · rw [if_neg h1]
      by_cases h2 : lexLt x.data y.data = true
      · rw [if_pos h2]
        simp only [List.mem_cons, ih]
      · rw [if_neg h2]
        simp only [List.mem_cons, ih]
        tauto

theorem pairwise_insD {x : String} {l : List String} (hs : l.Pairwise strLt) :
    (insD x l).Pairwise strLt := by
  induction l with
  | nil =>
    simp [insD]
  | cons y ys ih =>
    rw [List.pairwise_cons] at hs
    obtain ⟨hy, hys⟩ := hs
    unfold insD
    by_cases h1 : x = y
    · rw [if_pos h1]
      exact List.Pairwise.cons hy hys
    · rw [if_neg h1]
      by_cases h2 : lexLt x.data y.data = true
      · rw [if_pos h2]
        refine List.Pairwise.cons ?_ (List.Pairwise.cons hy hys)
        intro z hz
        rcases List.mem_cons.mp hz with rfl | hz2
        · exact h2
        · exact strLt_trans h2 (hy z hz2)
      · rw [if_neg h2]
        refine List.Pairwise.cons ?_ (ih hys)
        intro z hz
        rcases (mem_insD x z ys).mp hz with rfl | hz2
        · have hne : z.data ≠ y.data := fun hd => h1 (congrArg String.mk hd)
          rcases lexLt_total hne with ht | ht
          · exact absurd ht h2
          · exact ht
        · exact hy z hz2

theorem pairwise_pySortedSet (l : List String) : (pySortedSet l).Pairwise strLt := by
  induction l with
  | nil => exact List.Pairwise.nil
  | cons x xs ih => exact pairwise_insD ih

theorem mem_pySortedSet (a : String) (l : List String) :
    a ∈ pySortedSet l ↔ a ∈ l := by
  induction l with
  | nil => simp [pySortedSet]
  | cons x xs ih =>
    have hfold : pySortedSet (x :: xs) = insD x (pySortedSet xs) := rfl
    rw [hfold, mem_insD, ih, List.mem_cons]

/-! ## Claim C7 -/

/-- **C7 counterexample.** Cast-list entries are *not* unique by normalized
id: with the two distinct display names "HANS" and "Hans" the finalizer
produces two entries, both with `xml:id` "hans". -/
theorem C7_counterexample :
    add_listPerson stTwo = [Person.mk "hans" "HANS", Person.mk "hans" "Hans"] ∧
    ¬ ((add_listPerson stTwo).map (fun p => p.xmlId)).Nodup := by
  constructor
  · decide
  · decide

/-- **C7 (amended).** After the finalizer runs, the cast list contains
exactly one entry per distinct stored speaker display name (deduplicated by
exact text equality): a name occurs among the entries iff it is the text of
some `speaker` element, there are no duplicate names, and the entries are
in strictly increasing lexicographic order (`strLt`, which coincides with
Mathlib's `List.Lex (· < ·)` on the underlying character lists).  Entries
are, however, *not* unique by normalized id (see the counterexample). -/
theorem C7_cast_list_sorted_dedup :
    ∀ st : Conv,
      ((add_listPerson st).map (fun p => p.persName)).Pairwise strLt ∧
      ((add_listPerson st).map (fun p => p.persName)).Nodup ∧
      (∀ n : String, n ∈ (add_listPerson st).map (fun p => p.persName) ↔
        ∃ e ∈ st.elems, e.tag = NTag.speaker ∧ e.text = n) ∧
      (∀ x y : String, strLt x y ↔ List.Lex (· < ·) x.data y.data) := by
  intro st
  have hmap : (add_listPerson st).map (fun p => p.persName)
      = pySortedSet ((speakerNames st).map (·.text)) := by
    unfold add_listPerson
    rw [List.map_map]
    have hid : ((fun p : Person => p.persName) ∘
        (fun s => ({ xmlId := castId s, persName := s } : Person))) = fun s => s := rfl
    rw [hid, List.map_id']
  refine ⟨?_, ?_, ?_, ?_⟩
  · rw [hmap]
    exact pairwise_pySortedSet _
  · rw [hmap]
    exact (pairwise_pySortedSet _).imp strLt_ne
  · intro n
    rw [hmap, mem_pySortedSet]
    unfold speakerNames
    simp only [List.mem_map, List.mem_filter]
    constructor
    · rintro ⟨e, ⟨he, ht⟩, rfl⟩
      exact ⟨e, he, by simpa using ht, rfl⟩
    · rintro ⟨e, he, ht, rfl⟩
      exact ⟨e, ⟨he, by simpa using ht⟩, rfl⟩
  · intro x y
    exact lexLt_iff_lex x.data y.data

/-- Witness for C7 (amended) at `stTwo`, whose cast list is
[("hans","HANS"), ("hans","Hans")]. -/
theorem C7_cast_list_sorted_dedup_witness :
    ((add_listPerson stTwo).map (fun p => p.persName)).Pairwise strLt ∧
    ((add_listPerson stTwo).map (fun p => p.persName)).Nodup ∧
    ("HANS" ∈ (add_listPerson stTwo).map (fun p => p.persName) ↔
      ∃ e ∈ stTwo.elems, e.tag = NTag.speaker ∧ e.text = "HANS") :=
  ⟨(C7_cast_list_sorted_dedup stTwo).1, (C7_cast_list_sorted_dedup stTwo).2.1,
   (C7_cast_list_sorted_dedup stTwo).2.2.1 "HANS"⟩

end GbdeTotei
